import Mathlib

/-!
Shallow embedding of the line-annotation synchronization engine of the
vscode-gitblame-annotations extension (src/extension.ts, src/git.ts and the
unnamed historical variant files).  JS strings are modelled as lists of
UTF-16 code units (`Str`); JS number arithmetic on line indices is modelled
in `Int` where the source can go negative, in `Nat` where it cannot.
-/

namespace GitBlame

/-- JS strings are sequences of UTF-16 code units. -/
abbrev Str := List Nat

/-- UTF-16 encoding of one Unicode code point. -/
def encodeUtf16Char (c : Char) : List Nat :=
  let v := c.toNat
  if v < 0x10000 then [v]
  else [0xD800 + (v - 0x10000) / 0x400, 0xDC00 + (v - 0x10000) % 0x400]

/-- UTF-16 code units of a Lean string literal. -/
def encodeUtf16 (s : String) : Str :=
  (s.data.map encodeUtf16Char).flatten

/-- One per-line attribution record (interface Blame; the `mail` field is the
one of the incremental variant and of buildUncommitBlame). -/
structure Blame where
  line : Int
  author : Str
  mail : Str
  commit : Str
  summary : Str
  timestamp : Int
  commited : Bool
  title : Str
deriving DecidableEq

/-- The all-zero sentinel commit id. -/
def zeroCommit : Str := encodeUtf16 "0000000000000000000000000000000000000000"

/-- buildUncommitBlame from extension.ts. -/
def buildUncommitBlame (line : Int) : Blame :=
  { line := line, commit := zeroCommit, author := [], mail := [],
    timestamp := 0, summary := [], commited := false, title := [] }

/-- One raw text-replacement description (vscode change event): the buffer
range from (startLine, startChar) to (endLine, endChar) is replaced by
`text`. -/
structure ContentChange where
  startLine : Nat
  startChar : Nat
  endLine : Nat
  endChar : Nat
  text : Str
deriving DecidableEq

/-- Result of resolveChange: the classified line operations. -/
structure ResolvedChange where
  addedLines : List Int
  deletedLines : List Int
  modifiedLines : List Int
deriving DecidableEq

/-- The list a JS loop `for (i = a; i <= b; i++) xs.push(i)` builds. -/
def intRange (a b : Int) : List Int :=
  (List.range (b + 1 - a).toNat).map (fun (k : Nat) => a + (k : Int))

/-- `changeText.replace` of the trailing-spaces regex: removes trailing
U+0020 characters (only spaces, nothing else). -/
def trimTrailingSpaces (s : Str) : Str :=
  (s.reverse.dropWhile (fun u => u == 0x20)).reverse

/-- `changeText.split` on CRLF-or-LF yields this many pieces: one more than
the number of separators, scanning left to right, CRLF consumed as a single
separator, a lone CR not being a separator. -/
def countSplitLines : Str → Nat
  | [] => 1
  | 13 :: 10 :: rest => 1 + countSplitLines rest
  | 10 :: rest => 1 + countSplitLines rest
  | _ :: rest => countSplitLines rest

/-- `startLineCharacter > 0 ? startLine + 1 : startLine` — the index used by
resolveChange both for the pure newline insertion and for the first deleted
line of a multi-line deletion. -/
def startOrNext (c : ContentChange) : Int :=
  if 0 < c.startChar then (c.startLine : Int) + 1 else (c.startLine : Int)

/-- `textLines - crossLines` of resolveChange's general branch. -/
def lineDiff (c : ContentChange) : Int :=
  (countSplitLines c.text : Int) - ((c.endLine : Int) - (c.startLine : Int) + 1)

/-- resolveChange from extension.ts: classify one content change into added,
deleted and modified line indices. -/
def resolveChange (c : ContentChange) : ResolvedChange :=
  if c.text = [] then
    if (c.endLine : Int) - (c.startLine : Int) = 1 then
      { addedLines := [], deletedLines := [(c.startLine : Int) + 1], modifiedLines := [] }
    else if 1 < (c.endLine : Int) - (c.startLine : Int) then
      { addedLines := [],
        deletedLines := intRange (startOrNext c)
          (startOrNext c + ((c.endLine : Int) - (c.startLine : Int)) - 1),
        modifiedLines := [] }
    else if (c.endLine : Int) - (c.startLine : Int) = 0 then
      { addedLines := [], deletedLines := [], modifiedLines := [(c.startLine : Int)] }
    else
      { addedLines := [], deletedLines := [], modifiedLines := [] }
  else if trimTrailingSpaces c.text = [10] ∨ trimTrailingSpaces c.text = [13, 10] then
    { addedLines := [startOrNext c], deletedLines := [], modifiedLines := [] }
  else if 0 < lineDiff c then
    { addedLines := intRange ((c.endLine : Int) + 1) ((c.endLine : Int) + lineDiff c),
      deletedLines := [],
      modifiedLines := intRange (c.startLine : Int) (c.endLine : Int) }
  else if lineDiff c < 0 then
    { addedLines := [],
      deletedLines := intRange ((c.endLine : Int) + lineDiff c + 1) (c.endLine : Int),
      modifiedLines := intRange (c.startLine : Int) ((c.endLine : Int) + lineDiff c) }
  else
    { addedLines := [], deletedLines := [],
      modifiedLines := intRange (c.startLine : Int) (c.endLine : Int) }

/-- Modelled from the spec's words, for comparison with the code: "ignoring
trailing inserted whitespace" — strips trailing spaces and tabs. -/
def specTrimTrailingWhitespace (s : Str) : Str :=
  (s.reverse.dropWhile (fun u => u == 0x20 || u == 0x9)).reverse

/-- JS Array.prototype.splice clamping of a possibly negative start index. -/
def spliceStart (len : Nat) (i : Int) : Nat :=
  if i < 0 then ((len : Int) + i).toNat else min i.toNat len

/-- blames.splice(i, 1): remove the element at the clamped index, if any. -/
def spliceDelete (l : List Blame) (i : Int) : List Blame :=
  let s := spliceStart l.length i
  l.take s ++ l.drop (s + 1)

/-- blames.splice(i, 0, x): insert x at the clamped index. -/
def spliceInsert (l : List Blame) (i : Int) (x : Blame) : List Blame :=
  let s := spliceStart l.length i
  l.take s ++ x :: l.drop s

/-- The modified-lines loop of updateDecorationsOnChange.  Reading
`blames[i].commited` at an out-of-range index is the JS TypeError, modelled
as `none`; the Bool is the shouldUpdate contribution. -/
def applyModified : List Blame → List Int → Option (List Blame × Bool)
  | blames, [] => some (blames, false)
  | blames, i :: rest =>
    if i < 0 then none
    else
      match blames.get? i.toNat with
      | none => none
      | some b =>
        if b.commited then
          match applyModified (blames.set i.toNat
              { b with commit := zeroCommit, commited := false }) rest with
          | none => none
          | some p => some (p.1, true)
        else
          applyModified blames rest

/-- The deleted-lines loop: indices processed from the last list entry down
to the first. -/
def applyDeletes (blames : List Blame) (deleted : List Int) : List Blame :=
  deleted.reverse.foldl spliceDelete blames

/-- The added-lines loop: indices processed in list order, each inserting a
fresh uncommitted record with line number index+1. -/
def applyAdds (blames : List Blame) (added : List Int) : List Blame :=
  added.foldl (fun bl i => spliceInsert bl i (buildUncommitBlame (i + 1))) blames

/-- One iteration of the per-change loop of updateDecorationsOnChange:
the updated record list and whether anything changed. -/
def applyChange (blames : List Blame) (rc : ResolvedChange) : Option (List Blame × Bool) :=
  if rc.addedLines.isEmpty && rc.deletedLines.isEmpty && rc.modifiedLines.isEmpty then
    some (blames, false)
  else
    match applyModified blames rc.modifiedLines with
    | none => none
    | some p =>
      let afterDel := applyDeletes p.1 rc.deletedLines
      let afterAdd := applyAdds afterDel rc.addedLines
      some (afterAdd, p.2 || !rc.deletedLines.isEmpty || !rc.addedLines.isEmpty)

/-- Length of the record list after applyChange (0 if the apply crashed). -/
def applyLen (blames : List Blame) (rc : ResolvedChange) : Nat :=
  match applyChange blames rc with
  | some p => p.1.length
  | none => 0

/-- charCodeAt(0) of the one-code-point string a for..of loop yields: the
code point itself on the BMP, the high surrogate for an astral point. -/
def charCodeAt0OfPoint (p : Nat) : Nat :=
  if 0x10000 ≤ p then 0xD800 + (p - 0x10000) / 0x400 else p

/-- Body of getCharacterWidth, applied to the charCodeAt(0) value. -/
def getCharacterWidthCode (code : Nat) : Nat :=
  if (0x3000 ≤ code ∧ code ≤ 0x9FFF) ∨ (0xAC00 ≤ code ∧ code ≤ 0xD7AF) ∨
     (0xF900 ≤ code ∧ code ≤ 0xFAFF) ∨ (0xFF00 ≤ code ∧ code ≤ 0xFFEF) then 2
  else if 0x1F300 ≤ code ∧ code ≤ 0x1F9FF then 2
  else if 0x300 ≤ code ∧ code ≤ 0x36F then 0
  else 1

/-- getCharacterWidth on a Unicode code point. -/
def getCharacterWidth (p : Nat) : Nat := getCharacterWidthCode (charCodeAt0OfPoint p)

/-- First code unit of each code point of a UTF-16 string, in order (for..of
iteration; an unpaired surrogate is its own point). -/
def pointFirstUnits : Str → List Nat
  | [] => []
  | [u] => [u]
  | u :: v :: rest =>
    if (0xD800 ≤ u ∧ u ≤ 0xDBFF) ∧ (0xDC00 ≤ v ∧ v ≤ 0xDFFF) then
      u :: pointFirstUnits rest
    else
      u :: pointFirstUnits (v :: rest)

/-- getTextWidth: the total width and the per-character width table. -/
def getTextWidth (text : Str) : Nat × List Nat :=
  let widths := (pointFirstUnits text).map getCharacterWidthCode
  (widths.sum, widths)

/-- The configured maximum title display width. -/
def MaxTitleWidth : Nat := 25

/-- One entry of the per-commit width table. -/
structure WidthInfo where
  width : Nat
  widths : List Nat
deriving DecidableEq

/-- JS Map lookup over an association list where the most recent set is
at the head. -/
def mapGet {α β : Type} [DecidableEq α] (m : List (α × β)) (k : α) : Option β :=
  (m.find? (fun e => e.1 == k)).map (fun e => e.2)

/-- One step of the lineDates/maxDateWidth reduce of fillTitles.  The date
formatter — `new Date(timestamp*1000)` rendered y/m/d in the host's local
timezone — is an external collaborator, passed as the parameter `fmt`. -/
def lineDatesStep (fmt : Int → Str) (acc : List (Int × Str) × Nat) (line : Blame) :
    List (Int × Str) × Nat :=
  if line.commited then
    ((line.line, fmt line.timestamp) :: acc.1, max acc.2 (fmt line.timestamp).length)
  else acc

/-- The lineDates/maxDateWidth reduce of fillTitles (initial width 8). -/
def lineDatesPass (fmt : Int → Str) (blames : List Blame) : List (Int × Str) × Nat :=
  blames.foldl (lineDatesStep fmt) ([], 8)

/-- padEnd with the figure-space character U+2007. -/
def padEndFig (s : Str) (n : Nat) : Str := s ++ List.replicate (n - s.length) 0x2007

/-- The title one record receives in fillTitles' second forEach
(`undefined` concatenation included for a missing date entry). -/
def buildTitle (lineDates : List (Int × Str)) (maxDateWidth : Nat) (line : Blame) : Blame :=
  if line.commited then
    let dateText :=
      match mapGet lineDates line.line with
      | some d => padEndFig d maxDateWidth
      | none => encodeUtf16 "undefined"
    { line with title := dateText ++ 0x20 :: line.author }
  else
    { line with title := [] }

/-- One step of the title-building forEach of fillTitles: retitle the record
and memoize its width per commit id, tracking the running maximum. -/
def titleStep (lineDates : List (Int × Str)) (maxDateWidth : Nat)
    (acc : List Blame × List (Str × WidthInfo) × Nat) (line : Blame) :
    List Blame × List (Str × WidthInfo) × Nat :=
  let line2 := buildTitle lineDates maxDateWidth line
  match mapGet acc.2.1 line2.commit with
  | some _ => (acc.1 ++ [line2], acc.2.1, acc.2.2)
  | none =>
    let wi := getTextWidth line2.title
    (acc.1 ++ [line2], (line2.commit, ⟨wi.1, wi.2⟩) :: acc.2.1,
      if acc.2.2 < wi.1 then wi.1 else acc.2.2)

/-- The title-building forEach of fillTitles: the retitled records, the
per-commit width table and the running maximum width. -/
def titlePass (fmt : Int → Str) (blames : List Blame) :
    List Blame × List (Str × WidthInfo) × Nat :=
  blames.foldl (titleStep (lineDatesPass fmt blames).1 (lineDatesPass fmt blames).2) ([], [], 0)

/-- trancateText's character loop: the text is indexed by code unit, the
width table by code point, exactly as in the source. -/
def trancateLoop (text : Str) (maxWidth : Nat) : Nat → Nat → List Nat → Str
  | _, _, [] => []
  | i, cw, w :: ws =>
    if cw + w ≤ maxWidth then text.getD i 0 :: trancateLoop text maxWidth (i + 1) (cw + w) ws
    else []

/-- trancateText from extension.ts. -/
def trancateText (text : Str) (maxWidth : Nat) (widths : List Nat) : Str :=
  trancateLoop text maxWidth 0 0 widths

/-- The running width trancateText's loop accumulates. -/
def trancateWidthLoop (maxWidth : Nat) : Nat → List Nat → Nat
  | cw, [] => cw
  | cw, w :: ws => if cw + w ≤ maxWidth then trancateWidthLoop maxWidth (cw + w) ws else cw

/-- The width of the kept prefix of trancateText. -/
def trancateWidth (maxWidth : Nat) (widths : List Nat) : Nat :=
  trancateWidthLoop maxWidth 0 widths

/-- fillTitles from extension.ts: builds every title, returns the capped
column width and the retitled records. -/
def fillTitles (fmt : Int → Str) (blames : List Blame) : Nat × List Blame :=
  let r := titlePass fmt blames
  if MaxTitleWidth < r.2.2 then
    (MaxTitleWidth,
      r.1.map (fun line =>
        let wi := (mapGet r.2.1 line.commit).getD ⟨0, []⟩
        if MaxTitleWidth < wi.width then
          { line with title := trancateText line.title (MaxTitleWidth - 1) wi.widths ++ [0x2026] }
        else line))
  else (r.2.2, r.1)

/-- The title fillTitles gives one record, in terms of that record's own
fields (what the in-place maps amount to on consistent data). -/
def expectedTitle (fmt : Int → Str) (maxDateWidth : Nat) (b : Blame) : Str :=
  if b.commited then padEndFig (fmt b.timestamp) maxDateWidth ++ 0x20 :: b.author else []

/-- One parsed file-change record (status plus the resolved Uris). -/
structure ChangeRec where
  status : String
  uri : Str
  originalUri : Str
  renameUri : Str
deriving DecidableEq

/-- `Uri.file(path.isAbsolute(p) ? p : path.join(root, p))`, modelled for
paths without `.`/`..`/duplicate-separator segments (the join collaborator
then just interposes one separator). -/
def resolvePath (root p : Str) : Str :=
  if p.head? = some 47 then p else root ++ 47 :: p

/-- JS String.trim, over the whitespace characters that can occur at the
boundaries of git output. -/
def jsTrim (s : Str) : Str :=
  let ws := fun u => u == 0x20 || u == 0x9 || u == 0xA || u == 0xD
  ((s.dropWhile ws).reverse.dropWhile ws).reverse

/-- raw.split of the NUL separator. -/
def splitOnNul : Str → List Str
  | [] => [[]]
  | u :: rest =>
    if u = 0 then [] :: splitOnNul rest
    else
      match splitOnNul rest with
      | [] => [[u]]
      | seg :: segs => (u :: seg) :: segs

/-- The while loop of parseChanges over the NUL-separated segments: consume
a status and a path each round, one extra path for a rename, matching only
the first character of the status; an unknown status stops everything. -/
def parseChangesLoop (root : Str) : List Str → List ChangeRec
  | change :: resourcePath :: rest =>
    if change.isEmpty || resourcePath.isEmpty then []
    else
      let originalUri := resolvePath root resourcePath
      match change.head? with
      | some 65 => ⟨"index_added", originalUri, originalUri, originalUri⟩ :: parseChangesLoop root rest
      | some 77 => ⟨"modified", originalUri, originalUri, originalUri⟩ :: parseChangesLoop root rest
      | some 68 => ⟨"deleted", originalUri, originalUri, originalUri⟩ :: parseChangesLoop root rest
      | some 82 =>
        match rest with
        | [] => [⟨"untracked", originalUri, originalUri, originalUri⟩]
        | newPath :: rest2 =>
          if newPath.isEmpty then
            ⟨"untracked", originalUri, originalUri, originalUri⟩ :: parseChangesLoop root rest2
          else
            let renamed := resolvePath root newPath
            ⟨"index_renamed", renamed, originalUri, renamed⟩ :: parseChangesLoop root rest2
      | _ => []
  | _ => []

/-- parseChanges from git.ts. -/
def parseChanges (root raw : Str) : List ChangeRec :=
  parseChangesLoop root ((splitOnNul (jsTrim raw)).filter (fun s => !s.isEmpty))

/-- One parsed incremental-blame block: the metadata of a commit together
with its accumulated (startLine, runLength) pairs (1-based start lines). -/
structure CommitBlame where
  lines : List (Nat × Nat)
  author : Str
  mail : Str
  commit : Str
  summary : Str
  timestamp : Int
  commited : Bool
  title : Str
deriving DecidableEq

/-- The record toBlames writes at 0-based index i: line number i+1 plus the
commit metadata. -/
def blameOfCommit (cb : CommitBlame) (i : Nat) : Blame :=
  { line := (i : Int) + 1, author := cb.author, mail := cb.mail,
    commit := cb.commit, summary := cb.summary, timestamp := cb.timestamp,
    commited := cb.commited, title := cb.title }

/-- The inner for loop of toBlames: write `n` records starting at index `i`. -/
def setRun (cb : CommitBlame) : List (Option Blame) → Nat → Nat → List (Option Blame)
  | arr, _, 0 => arr
  | arr, i, n + 1 => setRun cb (arr.set i (some (blameOfCommit cb i))) (i + 1) n

/-- toBlames from the incremental variant: an array of length totalLines
with holes (`none`) wherever no run writes. -/
def toBlames (totalLines : Nat) (cbs : List CommitBlame) : List (Option Blame) :=
  cbs.foldl
    (fun arr cb => cb.lines.foldl (fun arr pr => setRun cb arr (pr.1 - 1) pr.2) arr)
    (List.replicate totalLines none)

/-- The running maximum final line number parseBlames computes
(`lineNumber + lineCount - 1` over every run header). -/
def maxFinalLine (cbs : List CommitBlame) : Nat :=
  cbs.foldl (fun m cb => cb.lines.foldl (fun m pr => max m (pr.1 + pr.2 - 1)) m) 0

/-- Whether the 0-based index i is covered by some (startLine, runLength)
run. -/
def coversIdx (cbs : List CommitBlame) (i : Nat) : Bool :=
  cbs.any (fun cb => cb.lines.any (fun pr => decide (pr.1 - 1 ≤ i ∧ i < pr.1 - 1 + pr.2)))

/-- The caller's padding record (showDecorations of the incremental variant:
empty commit id, line number = current length + 1). -/
def padRecord (line : Int) : Blame :=
  { commit := [], author := [], timestamp := 0, summary := [],
    commited := false, title := [], line := line, mail := [] }

/-- The caller's while loop padding the parsed records up to the buffer's
line count by appending. -/
def padBlames (blames : List (Option Blame)) (lineCount : Nat) : List (Option Blame) :=
  if blames.length < lineCount then
    padBlames (blames ++ [some (padRecord ((blames.length : Int) + 1))]) lineCount
  else blames
termination_by lineCount - blames.length
decreasing_by simp [List.length_append]; omega

/-- The per-commit width-table entry a record ought to get: the width data
of its own expected title. -/
def widthInfoOf (fmt : Int → Str) (maxDateWidth : Nat) (b : Blame) : WidthInfo :=
  ⟨(getTextWidth (expectedTitle fmt maxDateWidth b)).1,
   (getTextWidth (expectedTitle fmt maxDateWidth b)).2⟩

/-- The lineDates entries a record list contributes, most recent first. -/
def ldEntries (fmt : Int → Str) (l : List Blame) : List (Int × Str) :=
  ((l.filter (fun b => b.commited)).reverse).map (fun b => (b.line, fmt b.timestamp))

/-- A committed sample record, for concrete instantiations. -/
def sampleBlame (n : Nat) : Blame :=
  { line := (n : Int), author := encodeUtf16 "alice", mail := [],
    commit := encodeUtf16 "abc", summary := encodeUtf16 "fix", timestamp := 5,
    commited := true, title := [] }

/-- Concrete one-line buffer state for the frame-effect scenario. -/
def blamesC2 : List Blame := [sampleBlame 1]

/-- A one-character in-line replacement on line 0. -/
def changeC2 : ContentChange := ⟨0, 0, 0, 0, encodeUtf16 "x"⟩

/-- A two-line replacement by one line of text ("abc"). -/
def changeW3 : ContentChange := ⟨0, 0, 1, 0, encodeUtf16 "abc"⟩

/-- A one-line-boundary pure deletion. -/
def changeW1 : ContentChange := ⟨0, 0, 1, 0, []⟩

/-- A mid-line pure newline insertion on line 1. -/
def changeW5 : ContentChange := ⟨1, 5, 1, 5, [10]⟩

/-- Two-line concrete buffer state. -/
def blamesW1 : List Blame := [sampleBlame 1, sampleBlame 2]

/-- A constant date formatter, for concrete instantiations. -/
def fmtW : Int → Str := fun _ => encodeUtf16 "2024/1/1"

/-- A committed record with a 30-column author, driving the title width past
the 25-column cap. -/
def blameWide : Blame :=
  { line := 1, author := encodeUtf16 "aaaaaaaaaaaaaaaaaaaaaaaaaaaaaa", mail := [],
    commit := encodeUtf16 "c1", summary := [], timestamp := 3, commited := true,
    title := [] }

/-- A commit block with runs [1,1] and [3,1]: line index 1 is uncovered. -/
def cbW : CommitBlame :=
  { lines := [(1, 1), (3, 1)], author := [], mail := [], commit := encodeUtf16 "c2",
    summary := [], timestamp := 0, commited := true, title := [] }

lemma intRange_length (a b : Int) : (intRange a b).length = (b + 1 - a).toNat := by
  simp [intRange]

lemma intRange_empty {a b : Int} (h : b < a) : intRange a b = [] := by
  unfold intRange
  have h0 : (b + 1 - a).toNat = 0 := by omega
  simp [h0]

lemma intRange_self (a : Int) : intRange a a = [a] := by
  unfold intRange
  have h1 : (a + 1 - a).toNat = 1 := by omega
  rw [h1]
  simp [List.range_succ]

lemma mem_intRange {a b i : Int} (h : i ∈ intRange a b) : a ≤ i ∧ i ≤ b := by
  unfold intRange at h
  simp only [List.mem_map, List.mem_range] at h
  obtain ⟨k, hk, rfl⟩ := h
  omega

lemma intRange_snoc {a b : Int} (h : a ≤ b) : intRange a b = intRange a (b - 1) ++ [b] := by
  unfold intRange
  have h1 : (b + 1 - a).toNat = (b - 1 + 1 - a).toNat + 1 := by omega
  rw [h1, List.range_succ, List.map_append]
  simp only [List.map_cons, List.map_nil]
  congr 2
  omega

/-- Claim C3: a replacement whose text is non-empty and (after the source's
trailing-space trim) is not a single line terminator is classified by the
sign of diff = textLines - crossLines: diff > 0 modifies startLine..endLine
and adds diff lines at endLine+1..endLine+diff; diff < 0 modifies
startLine..endLine+diff and deletes endLine+diff+1..endLine; diff = 0
modifies startLine..endLine only. -/
theorem claim_C3 (c : ContentChange)
    (h1 : c.text ≠ [])
    (h2 : trimTrailingSpaces c.text ≠ [10])
    (h3 : trimTrailingSpaces c.text ≠ [13, 10]) :
    (0 < lineDiff c →
      resolveChange c =
        { addedLines := intRange ((c.endLine : Int) + 1) ((c.endLine : Int) + lineDiff c),
          deletedLines := [],
          modifiedLines := intRange (c.startLine : Int) (c.endLine : Int) })
    ∧ (lineDiff c < 0 →
      resolveChange c =
        { addedLines := [],
          deletedLines := intRange ((c.endLine : Int) + lineDiff c + 1) (c.endLine : Int),
          modifiedLines := intRange (c.startLine : Int) ((c.endLine : Int) + lineDiff c) })
    ∧ (lineDiff c = 0 →
      resolveChange c =
        { addedLines := [], deletedLines := [],
          modifiedLines := intRange (c.startLine : Int) (c.endLine : Int) }) := by
  have hnl : ¬(trimTrailingSpaces c.text = [10] ∨ trimTrailingSpaces c.text = [13, 10]) := by
    rintro (h | h)
    · exact h2 h
    · exact h3 h
  refine ⟨fun hp => ?_, fun hn => ?_, fun hz => ?_⟩
  · simp only [resolveChange]
    rw [if_neg h1, if_neg hnl, if_pos hp]
  · simp only [resolveChange]
    rw [if_neg h1, if_neg hnl, if_neg (by omega), if_pos hn]
  · simp only [resolveChange]
    rw [if_neg h1, if_neg hnl, if_neg (by omega), if_neg (by omega)]

/-- Witness for claim C3 at the concrete two-lines-to-one replacement. -/
theorem claim_C3_witness :
    resolveChange changeW3 =
      { addedLines := [],
        deletedLines := intRange ((changeW3.endLine : Int) + lineDiff changeW3 + 1)
          (changeW3.endLine : Int),
        modifiedLines := intRange (changeW3.startLine : Int)
          ((changeW3.endLine : Int) + lineDiff changeW3) } :=
  (claim_C3 changeW3 (by decide) (by decide) (by decide)).2.1 (by decide)

/-- Claim C4: a pure deletion (empty replacement) spanning exactly one line
boundary deletes the single line startLine+1; spanning more than one, it
deletes the enclosed block of endLine-startLine lines beginning at
startLine+1 when the edit starts mid-line, at startLine otherwise; spanning
none, it only marks startLine modified. -/
theorem claim_C4 (c : ContentChange) (h : c.text = []) :
    ((c.endLine : Int) - (c.startLine : Int) = 1 →
      resolveChange c =
        { addedLines := [], deletedLines := [(c.startLine : Int) + 1], modifiedLines := [] })
    ∧ (1 < (c.endLine : Int) - (c.startLine : Int) →
      resolveChange c =
        { addedLines := [],
          deletedLines := intRange (startOrNext c)
            (startOrNext c + ((c.endLine : Int) - (c.startLine : Int)) - 1),
          modifiedLines := [] })
    ∧ ((c.endLine : Int) - (c.startLine : Int) = 0 →
      resolveChange c =
        { addedLines := [], deletedLines := [], modifiedLines := [(c.startLine : Int)] }) := by
  refine ⟨fun h1 => ?_, fun h2 => ?_, fun h3 => ?_⟩
  · simp only [resolveChange]
    rw [if_pos h, if_pos h1]
  · simp only [resolveChange]
    rw [if_pos h, if_neg (by omega), if_pos h2]
  · simp only [resolveChange]
    rw [if_pos h, if_neg (by omega), if_neg (by omega), if_pos h3]

/-- Witness for claim C4 at the concrete one-line-boundary deletion. -/
theorem claim_C4_witness :
    resolveChange changeW1 =
      { addedLines := [], deletedLines := [(changeW1.startLine : Int) + 1],
        modifiedLines := [] } :=
  (claim_C4 changeW1 (by decide)).1 (by decide)

/-- Claim C5 (amended): a replacement whose text, after removing trailing
spaces (U+0020 only), is exactly one line terminator adds one line at
startLine+1 when startChar > 0, at startLine otherwise, and deletes or
modifies nothing. -/
theorem claim_C5 (c : ContentChange) (h1 : c.text ≠ [])
    (h2 : trimTrailingSpaces c.text = [10] ∨ trimTrailingSpaces c.text = [13, 10]) :
    resolveChange c =
      { addedLines := [startOrNext c], deletedLines := [], modifiedLines := [] } := by
  simp only [resolveChange]
  rw [if_neg h1, if_pos h2]

/-- Witness for claim C5 at the concrete mid-line newline insertion. -/
theorem claim_C5_witness :
    resolveChange changeW5 =
      { addedLines := [startOrNext changeW5], deletedLines := [], modifiedLines := [] } :=
  claim_C5 changeW5 (by decide) (by decide)

/-- Counterexample to claim C5 as stated: the replacement "\n\t" is one line
terminator followed by trailing whitespace (a tab), yet the classifier takes
the general branch — the source's trim removes only spaces — marking line 1
modified and adding at index 2, not adding one line at index 1. -/
theorem claim_C5_counterexample :
    specTrimTrailingWhitespace [10, 9] = [10]
    ∧ resolveChange ⟨1, 0, 1, 0, [10, 9]⟩ =
        { addedLines := [2], deletedLines := [], modifiedLines := [1] }
    ∧ resolveChange ⟨1, 0, 1, 0, [10, 9]⟩ ≠
        { addedLines := [1], deletedLines := [], modifiedLines := [] } := by
  decide

/-- Claim C7: every code point in the emoji range U+1F300..U+1F9FF actually
receives width 1 — charCodeAt(0) yields its high surrogate, which no range
test matches, so the source's emoji branch cannot fire — while the CJK,
ASCII and combining-mark parts of the claim hold (3 CJK chars measure 6,
3 ASCII chars measure 3, a combining mark measures 0). -/
theorem claim_C7 :
    (∀ p : Nat, 0x1F300 ≤ p → p ≤ 0x1F9FF → getCharacterWidth p = 1)
    ∧ (getTextWidth (encodeUtf16 "中中中")).1 = 6
    ∧ (getTextWidth (encodeUtf16 "abc")).1 = 3
    ∧ getCharacterWidth 0x300 = 0
    ∧ (getTextWidth (65 :: 0x300 :: [])).1 = 1 := by
  refine ⟨?_, by decide, by decide, by decide, by decide⟩
  intro p hp1 hp2
  have hcode : charCodeAt0OfPoint p = 0xD800 + (p - 0x10000) / 0x400 := by
    unfold charCodeAt0OfPoint
    rw [if_pos (by omega)]
  unfold getCharacterWidth
  rw [hcode]
  unfold getCharacterWidthCode
  rw [if_neg (by omega), if_neg (by omega), if_neg (by omega)]

/-- Witness for claim C7 at the concrete emoji U+1F300. -/
theorem claim_C7_witness : getCharacterWidth 0x1F300 = 1 :=
  claim_C7.1 0x1F300 (by decide) (by decide)

lemma countSplitLines_pos (s : Str) : 1 ≤ countSplitLines s := by
  induction s using countSplitLines.induct <;> simp only [countSplitLines] <;> omega

lemma spliceStart_le (len : Nat) (i : Int) : spliceStart len i ≤ len := by
  unfold spliceStart
  split <;> omega

lemma length_spliceInsert (l : List Blame) (i : Int) (x : Blame) :
    (spliceInsert l i x).length = l.length + 1 := by
  have h := spliceStart_le l.length i
  simp [spliceInsert]
  omega

lemma length_spliceDelete (l : List Blame) (i : Int) (h0 : 0 ≤ i) (h : i.toNat < l.length) :
    (spliceDelete l i).length + 1 = l.length := by
  have hs : spliceStart l.length i = i.toNat := by
    unfold spliceStart
    rw [if_neg (by omega)]
    omega
  simp [spliceDelete, hs]
  omega

lemma length_applyAdds (added : List Int) : ∀ l : List Blame,
    (applyAdds l added).length = l.length + added.length := by
  induction added with
  | nil => intro l; simp [applyAdds]
  | cons a rest ih =>
    intro l
    have hstep : applyAdds l (a :: rest)
        = applyAdds (spliceInsert l a (buildUncommitBlame (a + 1))) rest := rfl
    rw [hstep, ih, length_spliceInsert]
    simp
    omega

lemma applyDeletes_nil (l : List Blame) : applyDeletes l [] = l := rfl

lemma applyAdds_nil (l : List Blame) : applyAdds l [] = l := rfl

lemma applyDeletes_snoc (l : List Blame) (del : List Int) (b : Int) :
    applyDeletes l (del ++ [b]) = applyDeletes (spliceDelete l b) del := by
  unfold applyDeletes
  rw [List.reverse_append]
  simp

lemma length_applyDeletes_intRange : ∀ (n : Nat) (a b : Int) (l : List Blame),
    (b + 1 - a).toNat = n → 0 ≤ a → b < (l.length : Int) →
    (applyDeletes l (intRange a b)).length + n = l.length := by
  intro n
  induction n with
  | zero =>
    intro a b l hn _ _
    rw [intRange_empty (by omega), applyDeletes_nil]
    omega
  | succ m ih =>
    intro a b l hn ha hb
    have hab : a ≤ b := by omega
    rw [intRange_snoc hab, applyDeletes_snoc]
    have hdel : (spliceDelete l b).length + 1 = l.length :=
      length_spliceDelete l b (by omega) (by omega)
    have hrec := ih a (b - 1) (spliceDelete l b) (by omega) ha (by omega)
    omega

lemma applyModified_ranged : ∀ (idxs : List Int) (l : List Blame),
    (∀ i ∈ idxs, 0 ≤ i ∧ i.toNat < l.length) →
    ∃ p, applyModified l idxs = some p ∧ p.1.length = l.length := by
  intro idxs
  induction idxs with
  | nil =>
    intro l _
    exact ⟨(l, false), rfl, rfl⟩
  | cons i rest ih =>
    intro l hmem
    obtain ⟨hi0, hilen⟩ := hmem i (List.mem_cons_self i rest)
    have hne : ¬ i < 0 := by omega
    obtain ⟨b, hb⟩ : ∃ b, l.get? i.toNat = some b := ⟨_, List.get?_eq_get hilen⟩
    by_cases hc : b.commited
    · have hlen' : (l.set i.toNat { b with commit := zeroCommit, commited := false }).length
          = l.length := List.length_set ..
      obtain ⟨p, hp, hplen⟩ := ih (l.set i.toNat { b with commit := zeroCommit, commited := false })
        (fun j hj => by
          obtain ⟨h1, h2⟩ := hmem j (List.mem_cons_of_mem _ hj)
          exact ⟨h1, by omega⟩)
      refine ⟨(p.1, true), ?_, by rw [hplen] at *; omega⟩
      simp only [applyModified]
      rw [if_neg hne, hb]
      simp only [if_pos hc, hp]
    · obtain ⟨p, hp, hplen⟩ := ih l (fun j hj => hmem j (List.mem_cons_of_mem _ hj))
      refine ⟨p, ?_, hplen⟩
      simp only [applyModified]
      rw [if_neg hne, hb]
      simp only [if_neg hc, hp]

lemma applyChange_ranged (blames : List Blame) (rc : ResolvedChange) (a b : Int)
    (hmod : ∀ i ∈ rc.modifiedLines, 0 ≤ i ∧ i.toNat < blames.length)
    (hdel : rc.deletedLines = intRange a b) (ha : 0 ≤ a)
    (hb : b < (blames.length : Int)) :
    applyChange blames rc ≠ none
    ∧ applyLen blames rc + rc.deletedLines.length
        = blames.length + rc.addedLines.length := by
  by_cases hempty :
      rc.addedLines.isEmpty && rc.deletedLines.isEmpty && rc.modifiedLines.isEmpty
  · have h1 : applyChange blames rc = some (blames, false) := by
      unfold applyChange
      rw [if_pos hempty]
    simp only [Bool.and_eq_true, List.isEmpty_iff] at hempty
    have hlen : applyLen blames rc = blames.length := by
      unfold applyLen
      rw [h1]
    refine ⟨by rw [h1]; simp, ?_⟩
    rw [hlen, hempty.1.1, hempty.1.2]
  · obtain ⟨p, hp, hplen⟩ := applyModified_ranged rc.modifiedLines blames hmod
    have h1 : applyChange blames rc
        = some (applyAdds (applyDeletes p.1 rc.deletedLines) rc.addedLines,
            p.2 || !rc.deletedLines.isEmpty || !rc.addedLines.isEmpty) := by
      unfold applyChange
      rw [if_neg hempty, hp]
    have hdll : (applyDeletes p.1 rc.deletedLines).length + rc.deletedLines.length
        = p.1.length := by
      rw [hdel, intRange_length]
      exact length_applyDeletes_intRange ((b + 1 - a).toNat) a b p.1 rfl ha (by omega)
    have hall := length_applyAdds rc.addedLines (applyDeletes p.1 rc.deletedLines)
    have hlen : applyLen blames rc
        = (applyAdds (applyDeletes p.1 rc.deletedLines) rc.addedLines).length := by
      unfold applyLen
      rw [h1]
    refine ⟨by rw [h1]; simp, ?_⟩
    rw [hlen]
    omega

/-- Claim C1: for any valid prior record sequence (at least endLine+1
records) and the classified edit of any single change event, the apply step
does not crash and the new sequence length satisfies
new + deleted = old + added — deletions walking the (ascending) deleted list
from its highest entry down, insertions from the lowest up. -/
theorem claim_C1 (blames : List Blame) (c : ContentChange)
    (h1 : c.startLine ≤ c.endLine) (h2 : c.endLine < blames.length) :
    applyChange blames (resolveChange c) ≠ none
    ∧ applyLen blames (resolveChange c) + (resolveChange c).deletedLines.length
        = blames.length + (resolveChange c).addedLines.length := by
  by_cases ht : c.text = []
  · by_cases hd1 : (c.endLine : Int) - (c.startLine : Int) = 1
    · have hrc : resolveChange c
          = { addedLines := [], deletedLines := [(c.startLine : Int) + 1],
              modifiedLines := [] } := by
        simp only [resolveChange]
        rw [if_pos ht, if_pos hd1]
      rw [hrc]
      refine applyChange_ranged blames _ ((c.startLine : Int) + 1) ((c.startLine : Int) + 1)
        (fun i hi => absurd hi (List.not_mem_nil _)) (intRange_self _).symm (by omega) (by omega)
    · by_cases hd2 : 1 < (c.endLine : Int) - (c.startLine : Int)
      · have hrc : resolveChange c
            = { addedLines := [],
                deletedLines := intRange (startOrNext c)
                  (startOrNext c + ((c.endLine : Int) - (c.startLine : Int)) - 1),
                modifiedLines := [] } := by
          simp only [resolveChange]
          rw [if_pos ht, if_neg hd1, if_pos hd2]
        rw [hrc]
        refine applyChange_ranged blames _ (startOrNext c)
          (startOrNext c + ((c.endLine : Int) - (c.startLine : Int)) - 1)
          (fun i hi => absurd hi (List.not_mem_nil _)) rfl ?_ ?_
        · unfold startOrNext
          split <;> omega
        · unfold startOrNext
          split <;> omega
      · have hd0 : (c.endLine : Int) - (c.startLine : Int) = 0 := by omega
        have hrc : resolveChange c
            = { addedLines := [], deletedLines := [],
                modifiedLines := [(c.startLine : Int)] } := by
          simp only [resolveChange]
          rw [if_pos ht, if_neg hd1, if_neg hd2, if_pos hd0]
        rw [hrc]
        refine applyChange_ranged blames _ 0 (-1) ?_ (intRange_empty (by omega)).symm
          (by omega) (by omega)
        intro i hi
        simp only [List.mem_singleton] at hi
        subst hi
        constructor
        · omega
        · omega
  · by_cases hnl : trimTrailingSpaces c.text = [10] ∨ trimTrailingSpaces c.text = [13, 10]
    · have hrc : resolveChange c
          = { addedLines := [startOrNext c], deletedLines := [], modifiedLines := [] } := by
        simp only [resolveChange]
        rw [if_neg ht, if_pos hnl]
      rw [hrc]
      exact applyChange_ranged blames _ 0 (-1)
        (fun i hi => absurd hi (List.not_mem_nil _)) (intRange_empty (by omega)).symm
        (by omega) (by omega)
    · have hmodrange : ∀ i ∈ intRange (c.startLine : Int) (c.endLine : Int),
          0 ≤ i ∧ i.toNat < blames.length := by
        intro i hi
        obtain ⟨hlo, hhi⟩ := mem_intRange hi
        constructor
        · omega
        · omega
      by_cases hdp : 0 < lineDiff c
      · have hrc : resolveChange c
            = { addedLines := intRange ((c.endLine : Int) + 1) ((c.endLine : Int) + lineDiff c),
                deletedLines := [],
                modifiedLines := intRange (c.startLine : Int) (c.endLine : Int) } := by
          simp only [resolveChange]
          rw [if_neg ht, if_neg hnl, if_pos hdp]
        rw [hrc]
        exact applyChange_ranged blames _ 0 (-1) hmodrange (intRange_empty (by omega)).symm
          (by omega) (by omega)
      · by_cases hdn : lineDiff c < 0
        · have hrc : resolveChange c
              = { addedLines := [],
                  deletedLines := intRange ((c.endLine : Int) + lineDiff c + 1) (c.endLine : Int),
                  modifiedLines := intRange (c.startLine : Int) ((c.endLine : Int) + lineDiff c) }
              := by
            simp only [resolveChange]
            rw [if_neg ht, if_neg hnl, if_neg (by omega), if_pos hdn]
          rw [hrc]
          have hd : lineDiff c = (countSplitLines c.text : Int)
              - ((c.endLine : Int) - (c.startLine : Int) + 1) := rfl
          refine applyChange_ranged blames _ ((c.endLine : Int) + lineDiff c + 1)
            (c.endLine : Int) ?_ rfl ?_ ?_
          · intro i hi
            obtain ⟨hlo, hhi⟩ := mem_intRange hi
            constructor
            · omega
            · omega
          · omega
          · omega
        · have hdz : lineDiff c = 0 := by omega
          have hrc : resolveChange c
              = { addedLines := [], deletedLines := [],
                  modifiedLines := intRange (c.startLine : Int) (c.endLine : Int) } := by
            simp only [resolveChange]
            rw [if_neg ht, if_neg hnl, if_neg (by omega), if_neg (by omega)]
          rw [hrc]
          exact applyChange_ranged blames _ 0 (-1) hmodrange (intRange_empty (by omega)).symm
            (by omega) (by omega)

/-- Witness for claim C1 at a concrete one-line-boundary deletion on a
two-record sequence. -/
theorem claim_C1_witness :
    applyChange blamesW1 (resolveChange changeW1) ≠ none
    ∧ applyLen blamesW1 (resolveChange changeW1) + (resolveChange changeW1).deletedLines.length
        = blamesW1.length + (resolveChange changeW1).addedLines.length :=
  claim_C1 blamesW1 changeW1 (by decide) (by decide)

/-- Claim C2 (amended): an edit classified as exactly one modified line whose
record is committed replaces that record's commitId with the all-zero
sentinel and clears its committed flag — the author, summary and timestamp
fields keep their old values — and leaves the record at every other index
unchanged. -/
theorem claim_C2 (c : ContentChange) (blames : List Blame) (i : Nat) (b : Blame)
    (hrc : resolveChange c
      = { addedLines := [], deletedLines := [], modifiedLines := [(i : Int)] })
    (hb : blames.get? i = some b) (hc : b.commited = true) :
    applyChange blames (resolveChange c)
      = some (blames.set i { b with commit := zeroCommit, commited := false }, true)
    ∧ ∀ j, j ≠ i →
        (blames.set i { b with commit := zeroCommit, commited := false }).get? j
          = blames.get? j := by
  constructor
  · rw [hrc]
    have hmod : applyModified blames [(i : Int)]
        = some (blames.set i { b with commit := zeroCommit, commited := false }, true) := by
      simp only [applyModified]
      rw [if_neg (by omega), Int.toNat_natCast, hb]
      simp only [if_pos hc]
    unfold applyChange
    rw [if_neg (by simp), hmod]
    rfl
  · intro j hj
    exact List.get?_set_ne _ blames (Ne.symm hj)

/-- Witness for claim C2 at the concrete one-character in-line edit on a
one-record committed sequence. -/
theorem claim_C2_witness :
    applyChange blamesC2 (resolveChange changeC2)
      = some (blamesC2.set 0 { sampleBlame 1 with commit := zeroCommit, commited := false },
          true)
    ∧ ∀ j, j ≠ 0 →
        (blamesC2.set 0 { sampleBlame 1 with commit := zeroCommit, commited := false }).get? j
          = blamesC2.get? j :=
  claim_C2 changeC2 blamesC2 0 (sampleBlame 1) (by decide) (by decide) (by decide)

/-- Counterexample to claim C2 as stated: after the apply step the modified
record is not a fresh sentinel record — its author is still "alice", its
summary still "fix" and its timestamp still 5; only commitId and the
committed flag change. -/
theorem claim_C2_counterexample :
    applyChange blamesC2 (resolveChange changeC2)
      = some ([{ line := 1, author := encodeUtf16 "alice", mail := [], commit := zeroCommit,
                 summary := encodeUtf16 "fix", timestamp := 5, commited := false,
                 title := [] }], true)
    ∧ encodeUtf16 "alice" ≠ []
    ∧ encodeUtf16 "fix" ≠ []
    ∧ (5 : Int) ≠ 0 := by
  decide

lemma length_setRun : ∀ (n : Nat) (arr : List (Option Blame)) (i : Nat) (cb : CommitBlame),
    (setRun cb arr i n).length = arr.length := by
  intro n
  induction n with
  | zero => intro arr i cb; rfl
  | succ m ih =>
    intro arr i cb
    show (setRun cb (arr.set i (some (blameOfCommit cb i))) (i + 1) m).length = arr.length
    rw [ih, List.length_set]

lemma setRun_get?_outside : ∀ (n : Nat) (arr : List (Option Blame)) (i j : Nat)
    (cb : CommitBlame), j < i ∨ i + n ≤ j →
    (setRun cb arr i n).get? j = arr.get? j := by
  intro n
  induction n with
  | zero => intro arr i j cb _; rfl
  | succ m ih =>
    intro arr i j cb hj
    show (setRun cb (arr.set i (some (blameOfCommit cb i))) (i + 1) m).get? j = arr.get? j
    rw [ih _ (i + 1) j cb (by omega), List.get?_set_ne _ arr (by omega)]

lemma runsFold_length (cb : CommitBlame) : ∀ (prs : List (Nat × Nat))
    (arr : List (Option Blame)),
    (prs.foldl (fun arr pr => setRun cb arr (pr.1 - 1) pr.2) arr).length = arr.length := by
  intro prs
  induction prs with
  | nil => intro arr; rfl
  | cons pr rest ih =>
    intro arr
    show (rest.foldl _ (setRun cb arr (pr.1 - 1) pr.2)).length = arr.length
    rw [ih, length_setRun]

lemma runsFold_get?_uncovered (cb : CommitBlame) : ∀ (prs : List (Nat × Nat))
    (arr : List (Option Blame)) (j : Nat),
    (∀ pr ∈ prs, ¬(pr.1 - 1 ≤ j ∧ j < pr.1 - 1 + pr.2)) →
    (prs.foldl (fun arr pr => setRun cb arr (pr.1 - 1) pr.2) arr).get? j = arr.get? j := by
  intro prs
  induction prs with
  | nil => intro arr j _; rfl
  | cons pr rest ih =>
    intro arr j hunc
    show (rest.foldl _ (setRun cb arr (pr.1 - 1) pr.2)).get? j = arr.get? j
    rw [ih _ j (fun q hq => hunc q (List.mem_cons_of_mem _ hq)),
      setRun_get?_outside _ arr _ j cb ?_]
    have := hunc pr (List.mem_cons_self pr rest)
    omega

lemma cbsFold_length : ∀ (cbs : List CommitBlame) (arr : List (Option Blame)),
    (cbs.foldl (fun arr cb => cb.lines.foldl (fun arr pr => setRun cb arr (pr.1 - 1) pr.2) arr)
      arr).length = arr.length := by
  intro cbs
  induction cbs with
  | nil => intro arr; rfl
  | cons cb rest ih =>
    intro arr
    show (rest.foldl _ (cb.lines.foldl _ arr)).length = arr.length
    rw [ih, runsFold_length]

lemma cbsFold_get?_uncovered : ∀ (cbs : List CommitBlame) (arr : List (Option Blame)) (j : Nat),
    (∀ cb ∈ cbs, ∀ pr ∈ cb.lines, ¬(pr.1 - 1 ≤ j ∧ j < pr.1 - 1 + pr.2)) →
    (cbs.foldl (fun arr cb => cb.lines.foldl (fun arr pr => setRun cb arr (pr.1 - 1) pr.2) arr)
      arr).get? j = arr.get? j := by
  intro cbs
  induction cbs with
  | nil => intro arr j _; rfl
  | cons cb rest ih =>
    intro arr j hunc
    show (rest.foldl _ (cb.lines.foldl _ arr)).get? j = arr.get? j
    rw [ih _ j (fun q hq => hunc q (List.mem_cons_of_mem _ hq)),
      runsFold_get?_uncovered cb _ arr j (hunc cb (List.mem_cons_self cb rest))]

lemma toBlames_length (totalLines : Nat) (cbs : List CommitBlame) :
    (toBlames totalLines cbs).length = totalLines := by
  unfold toBlames
  rw [cbsFold_length, List.length_replicate]

lemma toBlames_get?_uncovered (totalLines : Nat) (cbs : List CommitBlame) (j : Nat)
    (hj : j < totalLines) (hunc : coversIdx cbs j = false) :
    (toBlames totalLines cbs).get? j = some none := by
  unfold toBlames
  rw [cbsFold_get?_uncovered]
  · rw [List.get?_eq_getElem?, List.getElem?_replicate, if_pos hj]
  · intro cb hcb pr hpr
    simp only [coversIdx, Bool.eq_false_iff, ne_eq, List.any_eq_true,
      decide_eq_true_eq] at hunc
    push_neg at hunc
    have h2 := hunc cb hcb pr hpr
    omega

lemma padBlames_get?_lt (lineCount : Nat) : ∀ (blames : List (Option Blame)) (j : Nat),
    j < blames.length → (padBlames blames lineCount).get? j = blames.get? j := by
  have H : ∀ (n : Nat) (blames : List (Option Blame)) (j : Nat),
      lineCount - blames.length = n → j < blames.length →
      (padBlames blames lineCount).get? j = blames.get? j := by
    intro n
    induction n with
    | zero =>
      intro blames j hn hj
      rw [padBlames, if_neg (by omega)]
    | succ m ih =>
      intro blames j hn hj
      rw [padBlames]
      by_cases hlen : blames.length < lineCount
      · rw [if_pos hlen,
          ih _ j (by simp only [List.length_append, List.length_cons, List.length_nil]; omega)
            (by simp only [List.length_append, List.length_cons, List.length_nil]; omega),
          List.get?_append hj]
      · rw [if_neg hlen]
  exact fun blames j => H (lineCount - blames.length) blames j rfl

lemma ldEntries_cons_commited (fmt : Int → Str) {b : Blame} (hb : b.commited = true)
    (l : List Blame) :
    ldEntries fmt (b :: l) = ldEntries fmt l ++ [(b.line, fmt b.timestamp)] := by
  simp [ldEntries, List.filter_cons, hb]

lemma ldEntries_cons_uncommited (fmt : Int → Str) {b : Blame} (hb : b.commited = false)
    (l : List Blame) : ldEntries fmt (b :: l) = ldEntries fmt l := by
  simp [ldEntries, List.filter_cons, hb]

lemma ldfold_fst (fmt : Int → Str) : ∀ (l : List Blame) (m : List (Int × Str)) (w : Nat),
    (l.foldl (lineDatesStep fmt) (m, w)).1 = ldEntries fmt l ++ m := by
  intro l
  induction l with
  | nil =>
    intro m w
    simp [ldEntries]
  | cons b rest ih =>
    intro m w
    cases hb : b.commited
    · show (rest.foldl (lineDatesStep fmt) (lineDatesStep fmt (m, w) b)).1 = _
      have hstep : lineDatesStep fmt (m, w) b = (m, w) := by
        simp [lineDatesStep, hb]
      rw [hstep, ih, ldEntries_cons_uncommited fmt hb]
    · show (rest.foldl (lineDatesStep fmt) (lineDatesStep fmt (m, w) b)).1 = _
      have hstep : lineDatesStep fmt (m, w) b
          = ((b.line, fmt b.timestamp) :: m, max w (fmt b.timestamp).length) := by
        simp [lineDatesStep, hb]
      rw [hstep, ih, ldEntries_cons_commited fmt hb]
      simp

lemma mapGet_cons_eq {α β : Type} [DecidableEq α] (e : α × β) (rest : List (α × β))
    (k : α) (he : e.1 = k) : mapGet (e :: rest) k = some e.2 := by
  simp [mapGet, List.find?_cons, he]

lemma mapGet_cons_ne {α β : Type} [DecidableEq α] (e : α × β) (rest : List (α × β))
    (k : α) (he : e.1 ≠ k) : mapGet (e :: rest) k = mapGet rest k := by
  simp [mapGet, List.find?_cons, he]

lemma mapGet_eq_of_mem_of_consistent {α β : Type} [DecidableEq α] :
    ∀ (m : List (α × β)) (k : α) (v : β), (k, v) ∈ m → (∀ e ∈ m, e.1 = k → e.2 = v) →
    mapGet m k = some v := by
  intro m
  induction m with
  | nil =>
    intro k v hmem _
    cases hmem
  | cons e rest ih =>
    intro k v hmem hcons
    by_cases he : e.1 = k
    · rw [mapGet_cons_eq e rest k he, hcons e (List.mem_cons_self e rest) he]
    · rw [mapGet_cons_ne e rest k he]
      apply ih
      · rcases List.mem_cons.mp hmem with h | h
        · exact absurd (by rw [← h]) he
        · exact h
      · exact fun x hx => hcons x (List.mem_cons_of_mem _ hx)

lemma lineDates_lookup (fmt : Int → Str) (blames : List Blame)
    (H2 : ∀ b1 ∈ blames, ∀ b2 ∈ blames, b1.commited = true → b2.commited = true →
          b1.line = b2.line → b1.timestamp = b2.timestamp)
    (b : Blame) (hb : b ∈ blames) (hc : b.commited = true) :
    mapGet (lineDatesPass fmt blames).1 b.line = some (fmt b.timestamp) := by
  unfold lineDatesPass
  rw [ldfold_fst, List.append_nil]
  apply mapGet_eq_of_mem_of_consistent
  · unfold ldEntries
    refine List.mem_map.mpr ⟨b, ?_, rfl⟩
    rw [List.mem_reverse]
    exact List.mem_filter.mpr ⟨hb, by simp [hc]⟩
  · intro e he hek
    unfold ldEntries at he
    obtain ⟨b2, hb2mem, rfl⟩ := List.mem_map.mp he
    rw [List.mem_reverse] at hb2mem
    obtain ⟨hb2, hb2c⟩ := List.mem_filter.mp hb2mem
    simp only at hek ⊢
    rw [H2 b2 hb2 b hb (by simpa using hb2c) hc hek]

lemma buildTitle_expected (lineDates : List (Int × Str)) (mdw : Nat) (fmt : Int → Str)
    (b : Blame)
    (hlook : b.commited = true → mapGet lineDates b.line = some (fmt b.timestamp)) :
    buildTitle lineDates mdw b = { b with title := expectedTitle fmt mdw b } := by
  unfold buildTitle expectedTitle
  cases hc : b.commited
  · simp [hc]
  · rw [hlook hc]
    simp [hc]

lemma titleStep_fst (ld : List (Int × Str)) (mdw : Nat)
    (acc : List Blame × List (Str × WidthInfo) × Nat) (b : Blame) :
    (titleStep ld mdw acc b).1 = acc.1 ++ [buildTitle ld mdw b] := by
  unfold titleStep
  cases h : mapGet acc.2.1 (buildTitle ld mdw b).commit
  · simp [h]
  · simp [h]

lemma titleFold_fst (ld : List (Int × Str)) (mdw : Nat) :
    ∀ (l : List Blame) (acc : List Blame × List (Str × WidthInfo) × Nat),
    (l.foldl (titleStep ld mdw) acc).1 = acc.1 ++ l.map (buildTitle ld mdw) := by
  intro l
  induction l with
  | nil =>
    intro acc
    simp
  | cons b rest ih =>
    intro acc
    show (rest.foldl (titleStep ld mdw) (titleStep ld mdw acc b)).1 = _
    rw [ih, titleStep_fst]
    simp

lemma titleFold_mapGet_mono (ld : List (Int × Str)) (mdw : Nat) :
    ∀ (l : List Blame) (acc : List Blame × List (Str × WidthInfo) × Nat)
    (c : Str) (wi : WidthInfo), mapGet acc.2.1 c = some wi →
    mapGet ((l.foldl (titleStep ld mdw) acc).2.1) c = some wi := by
  intro l
  induction l with
  | nil =>
    intro acc c wi h
    exact h
  | cons b rest ih =>
    intro acc c wi h
    show mapGet ((rest.foldl (titleStep ld mdw) (titleStep ld mdw acc b)).2.1) c = some wi
    apply ih
    unfold titleStep
    cases hm : mapGet acc.2.1 (buildTitle ld mdw b).commit
    · have hne : (buildTitle ld mdw b).commit ≠ c := by
        intro hcc
        rw [hcc, h] at hm
        cases hm
      simp only [hm]
      rw [mapGet_cons_ne _ _ _ hne]
      exact h
    · simp only [hm]
      exact h

lemma titleFold_mapGet (ld : List (Int × Str)) (mdw : Nat) (fmt : Int → Str)
    (blames : List Blame)
    (Hb : ∀ b ∈ blames, buildTitle ld mdw b = { b with title := expectedTitle fmt mdw b })
    (H1 : ∀ b1 ∈ blames, ∀ b2 ∈ blames, b1.commit = b2.commit →
          expectedTitle fmt mdw b1 = expectedTitle fmt mdw b2) :
    ∀ (l : List Blame), (∀ b ∈ l, b ∈ blames) →
    ∀ (acc : List Blame × List (Str × WidthInfo) × Nat),
    (∀ b ∈ l, ∀ wi, mapGet acc.2.1 b.commit = some wi → wi = widthInfoOf fmt mdw b) →
    ∀ b ∈ l, mapGet ((l.foldl (titleStep ld mdw) acc).2.1) b.commit
      = some (widthInfoOf fmt mdw b) := by
  intro l
  induction l with
  | nil =>
    intro _ acc _ b hb
    cases hb
  | cons b0 rest ih =>
    intro hsub acc hacc b hbmem
    show mapGet ((rest.foldl (titleStep ld mdw) (titleStep ld mdw acc b0)).2.1) b.commit = _
    have hb0blames : b0 ∈ blames := hsub b0 (List.mem_cons_self b0 rest)
    have hline2 : buildTitle ld mdw b0 = { b0 with title := expectedTitle fmt mdw b0 } :=
      Hb b0 hb0blames
    cases hm : mapGet acc.2.1 b0.commit with
    | some wi0 =>
      have hstep : (titleStep ld mdw acc b0).2.1 = acc.2.1 := by
        unfold titleStep
        rw [hline2]
        simp [hm]
      rcases List.mem_cons.mp hbmem with rfl | hbr
      · have hwi0 : wi0 = widthInfoOf fmt mdw b := hacc b (List.mem_cons_self b rest) wi0 hm
        have hmono := titleFold_mapGet_mono ld mdw rest (titleStep ld mdw acc b) b.commit wi0
          (by rw [hstep]; exact hm)
        rw [hmono, hwi0]
      · refine ih (fun x hx => hsub x (List.mem_cons_of_mem _ hx)) _ ?_ b hbr
        intro b' hb' wi hwi
        rw [hstep] at hwi
        exact hacc b' (List.mem_cons_of_mem _ hb') wi hwi
    | none =>
      have hstep : (titleStep ld mdw acc b0).2.1
          = (b0.commit, widthInfoOf fmt mdw b0) :: acc.2.1 := by
        unfold titleStep
        rw [hline2]
        simp [hm, widthInfoOf]
      rcases List.mem_cons.mp hbmem with rfl | hbr
      · have hlook : mapGet ((titleStep ld mdw acc b).2.1) b.commit
            = some (widthInfoOf fmt mdw b) := by
          rw [hstep]
          exact mapGet_cons_eq _ _ _ rfl
        exact titleFold_mapGet_mono ld mdw rest _ _ _ hlook
      · refine ih (fun x hx => hsub x (List.mem_cons_of_mem _ hx)) _ ?_ b hbr
        intro b' hb' wi hwi
        rw [hstep] at hwi
        by_cases hcc : b0.commit = b'.commit
        · have hwival : wi = widthInfoOf fmt mdw b0 := by
            rw [mapGet_cons_eq _ _ _ hcc] at hwi
            exact (Option.some_injective _ hwi).symm
          rw [hwival]
          unfold widthInfoOf
          rw [H1 b0 hb0blames b' (hsub b' (List.mem_cons_of_mem _ hb')) hcc]
        · rw [mapGet_cons_ne _ _ _ hcc] at hwi
          exact hacc b' (List.mem_cons_of_mem _ hb') wi hwi

lemma trancateWidthLoop_le (mw : Nat) : ∀ (ws : List Nat) (cw : Nat), cw ≤ mw →
    trancateWidthLoop mw cw ws ≤ mw := by
  intro ws
  induction ws with
  | nil =>
    intro cw h
    exact h
  | cons w rest ih =>
    intro cw h
    show (if cw + w ≤ mw then trancateWidthLoop mw (cw + w) rest else cw) ≤ mw
    split
    · exact ih _ (by omega)
    · exact h

lemma trancateWidth_le (mw : Nat) (ws : List Nat) : trancateWidth mw ws ≤ mw :=
  trancateWidthLoop_le mw ws 0 (Nat.zero_le _)

lemma pointFirstUnits_length_le : ∀ s : Str, (pointFirstUnits s).length ≤ s.length := by
  intro s
  induction s using pointFirstUnits.induct with
  | case1 => simp [pointFirstUnits]
  | case2 u => simp [pointFirstUnits]
  | case3 u v rest h ih =>
    simp only [pointFirstUnits]
    rw [if_pos h]
    simp only [List.length_cons]
    omega
  | case4 u v rest h ih =>
    simp only [pointFirstUnits]
    rw [if_neg h]
    simp only [List.length_cons] at ih ⊢
    omega

lemma getTextWidth_widths_length (t : Str) : (getTextWidth t).2.length ≤ t.length := by
  simp only [getTextWidth, List.length_map]
  exact pointFirstUnits_length_le t

lemma trancateLoop_take (mw : Nat) : ∀ (ws : List Nat) (t : Str) (i cw : Nat),
    i + ws.length ≤ t.length → ∃ k, trancateLoop t mw i cw ws = (t.drop i).take k := by
  intro ws
  induction ws with
  | nil =>
    intro t i cw _
    exact ⟨0, by simp [trancateLoop]⟩
  | cons w rest ih =>
    intro t i cw hlen
    by_cases hc : cw + w ≤ mw
    · obtain ⟨k, hk⟩ := ih t (i + 1) (cw + w) (by simp only [List.length_cons] at hlen; omega)
      refine ⟨k + 1, ?_⟩
      show (if cw + w ≤ mw then t.getD i 0 :: trancateLoop t mw (i + 1) (cw + w) rest else [])
        = (t.drop i).take (k + 1)
      rw [if_pos hc, hk]
      have hi : i < t.length := by
        simp only [List.length_cons] at hlen
        omega
      rw [List.drop_eq_getElem_cons hi, List.take_succ_cons]
      congr 1
      rw [List.getD_eq_getElem?_getD, List.getElem?_eq_getElem hi]
      rfl
    · refine ⟨0, ?_⟩
      show (if cw + w ≤ mw then t.getD i 0 :: trancateLoop t mw (i + 1) (cw + w) rest else [])
        = (t.drop i).take 0
      rw [if_neg hc]
      simp

lemma trancateText_take (t : Str) (mw : Nat) :
    ∃ k, trancateText t mw (getTextWidth t).2 = t.take k := by
  obtain ⟨k, hk⟩ := trancateLoop_take mw (getTextWidth t).2 t 0 0
    (by simpa using getTextWidth_widths_length t)
  refine ⟨k, ?_⟩
  rw [trancateText, hk]
  simp

/-- Claim C6: on consistent record data (records sharing a commit id share
committed/author/timestamp; committed records sharing a line number share a
timestamp), when the per-commit maximum title width exceeds the 25-column
cap, fillTitles returns exactly 25; every record whose own title width
exceeds 25 gets that title replaced by the greedy prefix the width table
selects plus exactly one ellipsis — the prefix is a take of the title and
its accumulated width stays within cap-1 = 24 — and every record whose
title width is at most the cap keeps its title untruncated. -/
theorem claim_C6 (fmt : Int → Str) (blames : List Blame)
    (H1 : ∀ b1 ∈ blames, ∀ b2 ∈ blames, b1.commit = b2.commit →
          b1.commited = b2.commited ∧ b1.author = b2.author ∧ b1.timestamp = b2.timestamp)
    (H2 : ∀ b1 ∈ blames, ∀ b2 ∈ blames, b1.commited = true → b2.commited = true →
          b1.line = b2.line → b1.timestamp = b2.timestamp)
    (Hmax : MaxTitleWidth < (titlePass fmt blames).2.2) :
    (fillTitles fmt blames).1 = MaxTitleWidth
    ∧ (∀ ws, trancateWidth (MaxTitleWidth - 1) ws ≤ MaxTitleWidth - 1)
    ∧ (∀ t mw, ∃ k, trancateText t mw (getTextWidth t).2 = t.take k)
    ∧ ∀ i b, blames.get? i = some b →
        (fillTitles fmt blames).2.get? i = some (
          if MaxTitleWidth
              < (getTextWidth (expectedTitle fmt (lineDatesPass fmt blames).2 b)).1 then
            { b with title :=
                (trancateText (expectedTitle fmt (lineDatesPass fmt blames).2 b)
                  (MaxTitleWidth - 1)
                  (getTextWidth (expectedTitle fmt (lineDatesPass fmt blames).2 b)).2
                ++ [0x2026]) }
          else { b with title := expectedTitle fmt (lineDatesPass fmt blames).2 b }) := by
  have Hb : ∀ b ∈ blames,
      buildTitle (lineDatesPass fmt blames).1 (lineDatesPass fmt blames).2 b
        = { b with title := expectedTitle fmt (lineDatesPass fmt blames).2 b } :=
    fun b hb => buildTitle_expected _ _ fmt b (fun hc => lineDates_lookup fmt blames H2 b hb hc)
  have H1' : ∀ b1 ∈ blames, ∀ b2 ∈ blames, b1.commit = b2.commit →
      expectedTitle fmt (lineDatesPass fmt blames).2 b1
        = expectedTitle fmt (lineDatesPass fmt blames).2 b2 := by
    intro b1 h1m b2 h2m hcc
    obtain ⟨hcm, hau, hts⟩ := H1 b1 h1m b2 h2m hcc
    unfold expectedTitle
    rw [hcm, hau, hts]
  have htitled : (titlePass fmt blames).1
      = blames.map (buildTitle (lineDatesPass fmt blames).1 (lineDatesPass fmt blames).2) := by
    unfold titlePass
    rw [titleFold_fst]
    simp
  have hmap : ∀ b ∈ blames, mapGet (titlePass fmt blames).2.1 b.commit
      = some (widthInfoOf fmt (lineDatesPass fmt blames).2 b) := by
    intro b hb
    unfold titlePass
    exact titleFold_mapGet _ _ fmt blames Hb H1' blames (fun x hx => hx) ([], [], 0)
      (fun b' _ wi hwi => by simp [mapGet] at hwi) b hb
  have hcap : fillTitles fmt blames
      = (MaxTitleWidth, (titlePass fmt blames).1.map (fun line =>
          if MaxTitleWidth
              < ((mapGet (titlePass fmt blames).2.1 line.commit).getD ⟨0, []⟩).width then
            { line with title :=
                (trancateText line.title (MaxTitleWidth - 1)
                  ((mapGet (titlePass fmt blames).2.1 line.commit).getD ⟨0, []⟩).widths
                ++ [0x2026]) }
          else line)) := by
    simp only [fillTitles]
    rw [if_pos Hmax]
  refine ⟨by rw [hcap], fun ws => trancateWidth_le _ ws, fun t mw => trancateText_take t mw,
    ?_⟩
  intro i b hbi
  have hbmem : b ∈ blames := List.get?_mem hbi
  rw [hcap, htitled, List.get?_map, List.get?_map, hbi]
  simp only [Option.map_some']
  rw [Hb b hbmem]
  have hm := hmap b hbmem
  by_cases hw : MaxTitleWidth
      < (getTextWidth (expectedTitle fmt (lineDatesPass fmt blames).2 b)).1
  · simp [hm, widthInfoOf, hw]
  · simp [hm, widthInfoOf, hw]

/-- Witness for claim C6 at a single committed record whose title is 39
columns wide under a constant date formatter. -/
theorem claim_C6_witness :
    (fillTitles fmtW [blameWide]).1 = MaxTitleWidth
    ∧ (fillTitles fmtW [blameWide]).2.get? 0 = some (
        if MaxTitleWidth
            < (getTextWidth (expectedTitle fmtW (lineDatesPass fmtW [blameWide]).2 blameWide)).1
          then
          { blameWide with title :=
              (trancateText (expectedTitle fmtW (lineDatesPass fmtW [blameWide]).2 blameWide)
                (MaxTitleWidth - 1)
                (getTextWidth (expectedTitle fmtW (lineDatesPass fmtW [blameWide]).2 blameWide)).2
              ++ [0x2026]) }
        else { blameWide with title :=
                 expectedTitle fmtW (lineDatesPass fmtW [blameWide]).2 blameWide }) :=
  ⟨(claim_C6 fmtW [blameWide] (by decide) (by decide) (by decide)).1,
   (claim_C6 fmtW [blameWide] (by decide) (by decide) (by decide)).2.2.2 0 blameWide
     (by decide)⟩

/-- Claim C10: the run-length blame assembly returns a sequence whose length
is the maximal final line number any run references; every position no run
covers is a hole (none); and the caller's padding loop only appends, so
holes below the parsed length survive padding — a per-line read at such a
position observes no record. -/
theorem claim_C10 (cbs : List CommitBlame) (lineCount : Nat)
    (_hruns : ∀ cb ∈ cbs, ∀ pr ∈ cb.lines, 1 ≤ pr.1) :
    (toBlames (maxFinalLine cbs) cbs).length = maxFinalLine cbs
    ∧ (∀ i, i < maxFinalLine cbs → coversIdx cbs i = false →
        (padBlames (toBlames (maxFinalLine cbs) cbs) lineCount).get? i = some none)
    ∧ (∀ i, i < (toBlames (maxFinalLine cbs) cbs).length →
        (padBlames (toBlames (maxFinalLine cbs) cbs) lineCount).get? i
          = (toBlames (maxFinalLine cbs) cbs).get? i) := by
  have hlen := toBlames_length (maxFinalLine cbs) cbs
  refine ⟨hlen, fun i hi hunc => ?_, fun i hi => padBlames_get?_lt lineCount _ i hi⟩
  rw [padBlames_get?_lt lineCount _ i (by omega)]
  exact toBlames_get?_uncovered (maxFinalLine cbs) cbs i hi hunc

/-- Witness for claim C10 at the concrete run set [(1,1),(3,1)]: length 3,
and the uncovered interior index 1 is still a hole after padding to 5. -/
theorem claim_C10_witness :
    (toBlames (maxFinalLine [cbW]) [cbW]).length = maxFinalLine [cbW]
    ∧ (padBlames (toBlames (maxFinalLine [cbW]) [cbW]) 5).get? 1 = some none :=
  ⟨(claim_C10 [cbW] 5 (by decide)).1,
   (claim_C10 [cbW] 5 (by decide)).2.1 1 (by decide) (by decide)⟩

/-- Claim C8: the NUL-delimited tokens ["R100", "old.txt", "new.txt"] parse
to exactly one renamed change record whose original path resolves from
old.txt and whose renamed-to path resolves from new.txt; only the first
character of the status is matched, so a different similarity percentage
parses identically. -/
theorem claim_C8 :
    parseChanges (encodeUtf16 "/repo") (encodeUtf16 "R100\x00old.txt\x00new.txt") =
      [{ status := "index_renamed", uri := encodeUtf16 "/repo/new.txt",
         originalUri := encodeUtf16 "/repo/old.txt", renameUri := encodeUtf16 "/repo/new.txt" }]
    ∧ parseChanges (encodeUtf16 "/repo") (encodeUtf16 "R063\x00old.txt\x00new.txt") =
        parseChanges (encodeUtf16 "/repo") (encodeUtf16 "R100\x00old.txt\x00new.txt") := by
  decide

end GitBlame
